import Mathlib

/-!
Verification development for the `ocil` layout store
(`pkg/store` `Layout`) and the file getter (`pkg/artifact/file/getter`).

Shallow embedding conventions:
* byte payloads are `List Nat` (each entry `< 256`);
* the on-disk state is an association list from paths (lists of path
  components) to file contents; directories are implicit (a path is a
  directory when some stored file path properly extends it);
* Go `error` results become `Except String`;
* `digest.FromBytes` / `static.NewLayer`'s digest are the real SHA-256,
  implemented below over `Nat` with explicit `% 2^32` arithmetic.
-/

set_option maxRecDepth 10000

namespace Ocil

/-! ### SHA-256 (as used by go-digest `FromBytes` and go-containerregistry
`static.NewLayer`) -/

def w32 : Nat := 4294967296

def add32 (a b : Nat) : Nat := (a + b) % w32

def rotr32 (x n : Nat) : Nat :=
  ((x >>> n) ||| (x <<< (32 - n))) % w32

def shaK : List Nat :=
  [1116352408, 1899447441, 3049323471, 3921009573, 961987163,
   1508970993, 2453635748, 2870763221, 3624381080, 310598401,
   607225278, 1426881987, 1925078388, 2162078206, 2614888103,
   3248222580, 3835390401, 4022224774, 264347078, 604807628,
   770255983, 1249150122, 1555081692, 1996064986, 2554220882,
   2821834349, 2952996808, 3210313671, 3336571891, 3584528711,
   113926993, 338241895, 666307205, 773529912, 1294757372,
   1396182291, 1695183700, 1986661051, 2177026350, 2456956037,
   2730485921, 2820302411, 3259730800, 3345764771, 3516065817,
   3600352804, 4094571909, 275423344, 430227734, 506948616,
   659060556, 883997877, 958139571, 1322822218, 1537002063,
   1747873779, 1955562222, 2024104815, 2227730452, 2361852424,
   2428436474, 2756734187, 3204031479, 3329325298]

def shaInit : List Nat :=
  [1779033703, 3144134277, 1013904242, 2773480762, 1359893119,
   2600822924, 528734635, 1541459225]

/-- SHA-256 padding: append `0x80`, zeros, then the 64-bit big-endian bit
length, so the total length is a multiple of 64 bytes. -/
def shaPad (msg : List Nat) : List Nat :=
  let len := msg.length
  let bitlen := 8 * len
  let zeros := (119 - (len % 64)) % 64
  msg ++ [0x80] ++ List.replicate zeros 0 ++
    [(bitlen >>> 56) % 256, (bitlen >>> 48) % 256, (bitlen >>> 40) % 256,
     (bitlen >>> 32) % 256, (bitlen >>> 24) % 256, (bitlen >>> 16) % 256,
     (bitlen >>> 8) % 256, bitlen % 256]

/-- Big-endian 4-byte groups to 32-bit words. -/
def bytesToWords : List Nat → List Nat
  | a :: b :: c :: d :: rest => (((a * 256 + b) * 256 + c) * 256 + d) :: bytesToWords rest
  | _ => []

/-- Split into 64-byte blocks (fuel recursion so the kernel can evaluate). -/
def toBlocksF : Nat → List Nat → List (List Nat)
  | 0, _ => []
  | _, [] => []
  | fuel + 1, l => l.take 64 :: toBlocksF fuel (l.drop 64)

def toBlocks (l : List Nat) : List (List Nat) := toBlocksF l.length l

/-- Message schedule: extend 16 words to 64. -/
def shaSchedule (w16 : List Nat) : List Nat :=
  (List.range 64).foldl
    (fun acc i =>
      if i < 16 then acc ++ [w16.getD i 0]
      else
        let x15 := acc.getD (i - 15) 0
        let x2 := acc.getD (i - 2) 0
        let s0 := (rotr32 x15 7) ^^^ (rotr32 x15 18) ^^^ (x15 >>> 3)
        let s1 := (rotr32 x2 17) ^^^ (rotr32 x2 19) ^^^ (x2 >>> 10)
        acc ++ [(acc.getD (i - 16) 0 + s0 + acc.getD (i - 7) 0 + s1) % w32])
    []

/-- One round of the SHA-256 compression function. -/
def shaRound (w : List Nat) (st : List Nat) (i : Nat) : List Nat :=
  match st with
  | [a, b, c, d, e, f, g, h] =>
    let s1 := (rotr32 e 6) ^^^ (rotr32 e 11) ^^^ (rotr32 e 25)
    let ch := (e &&& f) ^^^ ((w32 - 1 - e) &&& g)
    let t1 := (h + s1 + ch + shaK.getD i 0 + w.getD i 0) % w32
    let s0 := (rotr32 a 2) ^^^ (rotr32 a 13) ^^^ (rotr32 a 22)
    let mj := (a &&& b) ^^^ (a &&& c) ^^^ (b &&& c)
    let t2 := (s0 + mj) % w32
    [add32 t1 t2, a, b, c, add32 d t1, e, f, g]
  | other => other

def shaCompress (hs : List Nat) (block : List Nat) : List Nat :=
  let w := shaSchedule (bytesToWords block)
  let st := (List.range 64).foldl (shaRound w) hs
  List.zipWith add32 hs st

def wordToBytes (x : Nat) : List Nat :=
  [(x >>> 24) % 256, (x >>> 16) % 256, (x >>> 8) % 256, x % 256]

/-- SHA-256 digest bytes of a byte string. -/
def sha256 (msg : List Nat) : List Nat :=
  ((toBlocks (shaPad msg)).foldl shaCompress shaInit).foldr
    (fun x acc => wordToBytes x ++ acc) []

def hexChar (n : Nat) : Char :=
  if n < 10 then Char.ofNat (48 + n) else Char.ofNat (87 + n)

def bytesToHex (bs : List Nat) : String :=
  String.mk (bs.foldr (fun b acc => hexChar (b / 16) :: hexChar (b % 16) :: acc) [])

/-- Lowercase hex encoding of the SHA-256 digest, as in go-containerregistry
`v1.Hash.Hex` and go-digest `Digest.Hex`. -/
def sha256hex (msg : List Nat) : String := bytesToHex (sha256 msg)

example : sha256hex [] = "e3b0c44298fc1c149afbf4c8996fb92427ae41e4649b934ca495991b7852b855" := by decide

example : sha256hex [97, 98, 99] = "ba7816bf8f01cfea414140de5dae2223b00361a396177a9cb410ff61f20015ad" := by decide

/-! ### On-disk state

Paths are lists of components relative to the process root; the state is an
association list from file paths to contents.  Directories are implicit:
`os.Stat` succeeds on `p` iff `p` is a stored file or a (weak) prefix of a
stored file's path.  `os.MkdirAll` is a no-op in this model (the store only
creates directories below its root and tolerates pre-existing ones). -/

abbrev FS := List (List String × List Nat)

def lookupFS : FS → List String → Option (List Nat)
  | [], _ => none
  | (q, b) :: rest, p => if q = p then some b else lookupFS rest p

def setFile (fs : FS) (p : List String) (b : List Nat) : FS := (p, b) :: fs

/-- `os.Stat p` succeeds: `p` exists as a file or as an implicit directory. -/
def statOk (fs : FS) (p : List String) : Bool :=
  fs.any (fun ent => p.isPrefixOf ent.1)

/-! ### Layers and the blob writer (`Layout.writeLayer` / `Layout.writeBlobData`) -/

/-- `v1.Hash`: algorithm (e.g. `"sha256"`) and hex-encoded digest. -/
structure Digest where
  algorithm : String
  hex : String
  deriving DecidableEq, Repr

/-- The `v1.Layer` interface at the boundary used by `writeLayer`: a fallible
digest producer (`Digest()`) and a fallible compressed-bytes producer
(`Compressed()`).  The digest is the layer's own report; `writeLayer` never
checks it against the bytes. -/
structure Layer where
  digest : Except String Digest
  compressed : Except String (List Nat)
  deriving Repr

/-- `static.NewLayer data ""`: its `Digest()` computes SHA-256 over exactly
`data`, and `Compressed()` returns `data` unchanged. -/
def staticLayer (data : List Nat) : Layer :=
  { digest := .ok { algorithm := "sha256", hex := sha256hex data }
    compressed := .ok data }

def blobPathFor (root : List String) (d : Digest) : List String :=
  root ++ ["blobs", d.algorithm, d.hex]

/-- `Layout.writeLayer`: obtain the layer's digest and compressed stream,
ensure `blobs/<algorithm>` exists, skip entirely when `os.Stat` succeeds on
the blob path, otherwise create the file with the stream's bytes. -/
def writeLayer (root : List String) (fs : FS) (lyr : Layer) : Except String FS :=
  match lyr.digest with
  | .error e => .error e
  | .ok d =>
    match lyr.compressed with
    | .error e => .error e
    | .ok bytes =>
      let p := blobPathFor root d
      if statOk fs p then .ok fs
      else .ok (setFile fs p bytes)

/-- `Layout.writeBlobData`: wrap the payload in a static layer (whose digest
is recomputed from the payload bytes) and write it. -/
def writeBlobData (root : List String) (fs : FS) (data : List Nat) : Except String FS :=
  writeLayer root fs (staticLayer data)

/-- The state after `writeBlobData`: the payload sits at the path named by
the SHA-256 of the exact payload bytes (pre-existing blobs are skipped). -/
def afterBlob (root : List String) (fs : FS) (data : List Nat) : FS :=
  if statOk fs (blobPathFor root ⟨"sha256", sha256hex data⟩) then fs
  else setFile fs (blobPathFor root ⟨"sha256", sha256hex data⟩) data

/-! ### Descriptors, manifests and artifacts -/

/-- `ocispec.Descriptor` (the fields `AddOCI` populates; `digest` is the
string form `"<algorithm>:<hex>"` produced by `digest.FromBytes`). -/
structure Descriptor where
  mediaType : String
  digest : String
  size : Nat
  annotations : List (String × String)
  deriving DecidableEq, Repr

def refNameKey : String := "org.opencontainers.image.ref.name"

/-- `v1.Manifest` (the fields relevant to the store). -/
structure Manifest where
  schemaVersion : Nat
  mediaType : String
  config : Descriptor
  layers : List Descriptor
  deriving DecidableEq, Repr

/-- Decimal rendering of a `Nat` (kernel-evaluable). -/
def natDigits : Nat → Nat → List Char
  | 0, _ => []
  | fuel + 1, n =>
    if n < 10 then [Char.ofNat (48 + n)]
    else natDigits fuel (n / 10) ++ [Char.ofNat (48 + n % 10)]

def natStr (n : Nat) : String := String.mk (natDigits (n + 1) n)

def commaSep : List String → String
  | [] => ""
  | [s] => s
  | s :: rest => s ++ "," ++ commaSep rest

def descriptorJson (d : Descriptor) : String :=
  "\x7b\"mediaType\":\"" ++ d.mediaType ++ "\",\"digest\":\"" ++ d.digest ++
    "\",\"size\":" ++ natStr d.size ++ "\x7d"

def strBytes (s : String) : List Nat := s.toList.map Char.toNat

/-- `json.Marshal` on a `v1.Manifest`: a deterministic serialization of the
manifest value (the store uses the resulting bytes both as the blob payload
and as the input of the descriptor's digest/size). -/
def marshalManifest (m : Manifest) : List Nat :=
  strBytes ("\x7b\"schemaVersion\":" ++ natStr m.schemaVersion ++
    ",\"mediaType\":\"" ++ m.mediaType ++
    "\",\"config\":" ++ descriptorJson m.config ++
    ",\"layers\":[" ++ commaSep (m.layers.map descriptorJson) ++
    "]\x7d")

/-- The descriptor `AddOCI` builds over the serialized manifest bytes. -/
def mkManifestDesc (m : Manifest) (ref : String) : Descriptor :=
  { mediaType := m.mediaType
    digest := "sha256:" ++ sha256hex (marshalManifest m)
    size := (marshalManifest m).length
    annotations := [(refNameKey, ref)] }

/-- `artifacts.OCI` at the boundary used by `AddOCI`: fallible producers for
the manifest, the raw config bytes and the layer list. -/
structure OCIArtifact where
  manifest : Except String Manifest
  rawConfig : Except String (List Nat)
  layers : Except String (List Layer)

/-! ### Cache layer

`pkg/layer`'s `Cache` and `OCICache` are code of this repository that is not
under `src/`; they are modelled from the spec. -/

/-- Modelled from the spec: the pluggable layer cache (`layer.Cache`), a
key-value capability (`get(key) -> bytes, bool`; `put(key, bytes)`), keyed by
the layer digest. -/
abbrev CacheSt := List (Digest × List Nat)

def cacheGet (c : CacheSt) (d : Digest) : Option (List Nat) :=
  (c.find? (fun e => e.1 == d)).map (fun e => e.2)

def cachePut (c : CacheSt) (d : Digest) (b : List Nat) : CacheSt := (d, b) :: c

/-- Modelled from the spec: `layer.OCICache`'s per-layer interception
(§4.2): derive the key from the layer's digest; on hit supply the previously
stored bytes instead of recomputing; on miss compute normally and store the
result.  Layers whose digest or bytes are unavailable pass through. -/
def cacheLayer (c : CacheSt) (l : Layer) : Layer × CacheSt :=
  match l.digest with
  | .error _ => (l, c)
  | .ok d =>
    match cacheGet c d with
    | some b => ({ digest := l.digest, compressed := .ok b }, c)
    | none =>
      match l.compressed with
      | .ok b => (l, cachePut c d b)
      | .error _ => (l, c)

def cacheStep (c : Option CacheSt) (l : Layer) : Layer × Option CacheSt :=
  match c with
  | none => (l, none)
  | some cs =>
    let r := cacheLayer cs l
    (r.1, some r.2)

/-! ### The layout store -/

/-- `store.Layout`: root directory, on-disk state, the in-memory index of
the embedded `content.OCI`, and the optional cache (`WithCache`). -/
structure LayoutSt where
  root : List String
  fs : FS
  index : List Descriptor
  cache : Option CacheSt

/-- Modelled from the spec: `content.OCI.AddIndex` appends the descriptor
(carrying its reference-name annotation) to the append-only index (§4.3). -/
def addIndex (idx : List Descriptor) (d : Descriptor) : List Descriptor :=
  idx ++ [d]

/-- The layer fan-out of `AddOCI`: every layer write is attempted (the
`errgroup` does not cancel independent blob writes) and the first failure,
in layer order, is reported.  When a cache is configured each layer is
first run through the cache interception. -/
def writeLayersC (root : List String) :
    List Layer → FS → Option CacheSt → FS × Option CacheSt × Option String
  | [], fs, c => (fs, c, none)
  | l :: rest, fs, c =>
    let s := cacheStep c l
    match writeLayer root fs s.1 with
    | .ok fs2 => writeLayersC root rest fs2 s.2
    | .error e =>
      let r := writeLayersC root rest fs s.2
      (r.1, r.2.1, some e)

/-- `Layout.AddOCI`: write the manifest blob, the config blob and the layer
blobs, then append the manifest's descriptor to the index under `ref`. -/
def AddOCI (st : LayoutSt) (oci : OCIArtifact) (ref : String) :
    LayoutSt × Except String Descriptor :=
  match oci.manifest with
  | .error e => (st, .error ("manifest: " ++ e))
  | .ok m =>
    let mdata := marshalManifest m
    match writeBlobData st.root st.fs mdata with
    | .error e => (st, .error ("write blob data " ++ e))
    | .ok fs1 =>
      match oci.rawConfig with
      | .error e => ({ st with fs := fs1 }, .error ("raw config: " ++ e))
      | .ok cdata =>
        match writeBlobData st.root fs1 cdata with
        | .error e => ({ st with fs := fs1 }, .error ("write blob data: " ++ e))
        | .ok fs2 =>
          match oci.layers with
          | .error e => ({ st with fs := fs2 }, .error ("layers: " ++ e))
          | .ok ls =>
            match writeLayersC st.root ls fs2 st.cache with
            | (fs3, c3, some e) =>
              ({ st with fs := fs3, cache := c3 }, .error ("write layers: " ++ e))
            | (fs3, c3, none) =>
              let d : Descriptor :=
                { mediaType := m.mediaType
                  digest := "sha256:" ++ sha256hex mdata
                  size := mdata.length
                  annotations := [(refNameKey, ref)] }
              ({ st with fs := fs3, cache := c3, index := addIndex st.index d }, .ok d)

/-- `artifacts.OCICollection` at the boundary: a fallible expansion into
`(reference, artifact)` pairs (`Contents()`); the model fixes an iteration
order for the Go map. -/
structure OCICollection where
  contents : Except String (List (String × OCIArtifact))

def addCollGo (st : LayoutSt) :
    List (String × OCIArtifact) → List Descriptor →
    LayoutSt × Except String (List Descriptor)
  | [], descs => (st, .ok descs)
  | (ref, oci) :: rest, descs =>
    match AddOCI st oci ref with
    | (st2, .error e) => (st2, .error e)
    | (st2, .ok d) => addCollGo st2 rest (descs ++ [d])

/-- `Layout.AddOCICollection`: expand the collection and add each pair
sequentially; on the first failure return `nil` and the bare error. -/
def AddOCICollection (st : LayoutSt) (col : OCICollection) :
    LayoutSt × Except String (List Descriptor) :=
  match col.contents with
  | .error e => (st, .error e)
  | .ok cnts => addCollGo st cnts []

/-- `os.RemoveAll`: delete the target and everything under it; succeeds (and
does nothing) when the target is absent. -/
def removeAll : FS → List String → FS
  | [], _ => []
  | ent :: rest, target =>
    if target.isPrefixOf ent.1 then removeAll rest target
    else ent :: removeAll rest target

/-- `Layout.Flush`: remove the blobs tree, `index.json` and the `oci-layout`
marker under the root; never errors in this model since `os.RemoveAll`
reports success on absent targets and no I/O faults are modelled. -/
def Flush (st : LayoutSt) : LayoutSt :=
  { st with fs :=
      removeAll (removeAll (removeAll st.fs (st.root ++ ["blobs"]))
        (st.root ++ ["index.json"])) (st.root ++ ["oci-layout"]) }

/-! ### Copy, CopyAll and Identify -/

def lookupAnn (l : List (String × String)) (k : String) : Option String :=
  (l.find? (fun e => e.1 == k)).map (fun e => e.2)

/-- The reference name under which an index entry is recorded (its ref-name
annotation; the empty string when absent). -/
def refOf (d : Descriptor) : String :=
  (lookupAnn d.annotations refNameKey).getD ""

/-- Name resolution in the index: last-appended entry wins (§3). -/
def resolveRef (idx : List Descriptor) (ref : String) : Option Descriptor :=
  (idx.filter (fun d => refOf d == ref)).getLast?

/-- The remote target at its interface boundary (§6): the references and
descriptors it has accepted, in order. -/
abbrev Target := List (String × Descriptor)

/-- Modelled from the spec: `oras.Copy` (external collaborator behind
`Layout.Copy`) resolves `ref` in this store's index and transfers the
referenced content to the target under `toRef`, preserving the descriptor;
it fails when `ref` is not found locally (§4.4). -/
def copyResolve (st : LayoutSt) (ref : String) (tgt : Target) (toRef : String) :
    Except String (Target × Descriptor) :=
  match resolveRef st.index ref with
  | none => .error ("oras copy: ref " ++ ref ++ ", toRef " ++ toRef ++ ": not found")
  | some d => .ok (tgt ++ [(toRef, d)], d)

def mapperApply (mapper : Option (String → Except String String)) (ref : String) :
    Except String String :=
  match mapper with
  | none => .ok ""
  | some f => f ref

/-- The body of `Layout.CopyAll`'s walk over the index entries (the walk is
`content.OCI.Walk`, modelled from the spec: iterate all entries in index
order, stopping at and propagating the first visitor error, §4.3).  Each
visit remaps the reference through the mapper (when provided) and then
copies; on error the accumulated descriptors are discarded (`return nil`). -/
def copyAllGo (st : LayoutSt) (mapper : Option (String → Except String String)) :
    List Descriptor → Target → List Descriptor →
    Target × Except String (List Descriptor)
  | [], tgt, descs => (tgt, .ok descs)
  | d :: rest, tgt, descs =>
    match mapperApply mapper (refOf d) with
    | .error e => (tgt, .error ("walk: mapper: " ++ e))
    | .ok toRef =>
      match copyResolve st (refOf d) tgt toRef with
      | .error e => (tgt, .error ("walk: layout copy: " ++ e))
      | .ok (tgt2, d2) => copyAllGo st mapper rest tgt2 (descs ++ [d2])

/-- `Layout.CopyAll`. -/
def CopyAll (st : LayoutSt) (tgt : Target)
    (mapper : Option (String → Except String String)) :
    Target × Except String (List Descriptor) :=
  copyAllGo st mapper st.index tgt []

/-- Split a char list at a separator (structural, kernel-evaluable). -/
def splitCharsGo (sep : Char) : List Char → List Char → List String
  | [], cur => [String.mk cur.reverse]
  | c :: rest, cur =>
    if c == sep then String.mk cur.reverse :: splitCharsGo sep rest []
    else splitCharsGo sep rest (c :: cur)

def splitOnChar (sep : Char) (s : String) : List String :=
  splitCharsGo sep s.toList []

def digestAlg (s : String) : String := (splitOnChar ':' s).headD ""

def digestHex (s : String) : String := (splitOnChar ':' s).getD 1 ""

/-- Modelled from the spec: `content.OCI.Fetch` reads back the blob
addressed by the descriptor's digest from the store's blob tree, failing
when it is absent. -/
def fetchBlob (st : LayoutSt) (desc : Descriptor) : Except String (List Nat) :=
  match lookupFS st.fs (st.root ++ ["blobs", digestAlg desc.digest, digestHex desc.digest]) with
  | some b => .ok b
  | none => .error "fetch: not found"

/-- `Layout.Identify`: fetch the blob and decode it as a manifest-like
document with an embedded config media type; any failure degrades to the
empty string.  The JSON decoder (`encoding/json`, external) is a
parameter at its interface boundary. -/
def Identify (decode : List Nat → Except String String) (st : LayoutSt)
    (desc : Descriptor) : String :=
  match fetchBlob st desc with
  | .error _ => ""
  | .ok bytes =>
    match decode bytes with
    | .error _ => ""
    | .ok mt => mt

/-! ### Concrete instances used in witnesses and counterexamples -/

def misreportingLayer : Layer :=
  { digest := .ok { algorithm := "sha256", hex := "00" }, compressed := .ok [1, 2, 3] }

def pretendLayer : Layer :=
  { digest := .ok { algorithm := "sha256", hex := "aa" }, compressed := .ok [7] }

def idSt : LayoutSt :=
  { root := [], fs := [(["blobs", "sha256", "ee"], [1])], index := [], cache := none }

def idDesc : Descriptor :=
  { mediaType := "x", digest := "sha256:ee", size := 1, annotations := [] }

def emptySt : LayoutSt := { root := [], fs := [], index := [], cache := none }

def wDesc : Descriptor :=
  { mediaType := "application/vnd", digest := "sha256:cc", size := 2, annotations := [] }

def wManifest : Manifest :=
  { schemaVersion := 2, mediaType := "mtype", config := wDesc, layers := [] }

def wArtifact : OCIArtifact :=
  { manifest := .ok wManifest, rawConfig := .ok [10, 11], layers := .ok [] }

def merrArtifact : OCIArtifact :=
  { manifest := .error "boom", rawConfig := .ok [], layers := .ok [] }

def goodLayerW : Layer :=
  { digest := .ok { algorithm := "sha256", hex := "bb" }, compressed := .ok [3, 4] }

def badLayerW : Layer :=
  { digest := .error "digest: boom", compressed := .ok [5] }

def failArtifact : OCIArtifact :=
  { manifest := .ok wManifest, rawConfig := .ok [10, 11],
    layers := .ok [goodLayerW, badLayerW] }

def failColl : OCICollection :=
  { contents := .ok [("r1", wArtifact), ("r2", merrArtifact)] }

def cdA : Descriptor :=
  { mediaType := "m", digest := "sha256:aa", size := 1,
    annotations := [(refNameKey, "r1")] }

def cdB : Descriptor :=
  { mediaType := "m", digest := "sha256:ab", size := 1,
    annotations := [(refNameKey, "r2")] }

def cdC : Descriptor :=
  { mediaType := "m", digest := "sha256:ac", size := 1,
    annotations := [(refNameKey, "r3")] }

def copySt : LayoutSt := { root := [], fs := [], index := [cdA, cdB, cdC], cache := none }

def failMapper : String → Except String String :=
  fun r => if r == "r1" then .ok "x1" else .error "boom"

def cacheSt : LayoutSt := { root := [], fs := [], index := [], cache := some [] }

def layerArtifact : OCIArtifact :=
  { manifest := .ok wManifest, rawConfig := .ok [10, 11], layers := .ok [goodLayerW] }

end Ocil

namespace Getter

/-! ### The file getter (`pkg/artifact/file/getter`, `File`)

Paths here are OS path strings; `filepath.Join`, `filepath.Clean` and
`filepath.Base` are modelled for slash-separated paths. -/

/-- `url.URL` (the fields the getter reads). -/
structure GoURL where
  host : String
  path : String

def isRooted (p : String) : Bool :=
  match p.toList with
  | [] => false
  | c :: _ => c == '/'

def lastComp : List String → Option String
  | [] => none
  | [x] => some x
  | _ :: rest => lastComp rest

def cleanStep (rooted : Bool) (acc : List String) (c : String) : List String :=
  if c = "" || c = "." then acc
  else if c = ".." then
    if acc ≠ [] ∧ lastComp acc ≠ some ".." then acc.dropLast
    else if rooted then acc
    else acc ++ [".."]
  else acc ++ [c]

def joinGo : List String → List Char
  | [] => []
  | [s] => s.toList
  | s :: rest => s.toList ++ '/' :: joinGo rest

def joinComps (l : List String) : String := String.mk (joinGo l)

/-- `filepath.Clean` for slash-separated paths. -/
def fpClean (p : String) : String :=
  if p = "" then "."
  else
    let rooted := isRooted p
    let out := (Ocil.splitOnChar '/' p).foldl (cleanStep rooted) []
    let body := joinComps out
    if rooted then (if body = "" then "/" else "/" ++ body)
    else (if body = "" then "." else body)

/-- `filepath.Join` of two elements: join the non-empty ones with a
separator and clean the result. -/
def fpJoin (a b : String) : String :=
  if a = "" && b = "" then ""
  else if a = "" then fpClean b
  else if b = "" then fpClean a
  else fpClean (a ++ "/" ++ b)

def dropTrailingSlashes (p : String) : String :=
  String.mk ((p.toList.reverse.dropWhile (fun c => c == '/')).reverse)

/-- `filepath.Base`: the last element of the path after trailing separators
are removed; `"."` for the empty path, `"/"` for all-separator paths. -/
def fpBase (p : String) : String :=
  if p = "" then "."
  else
    let s := dropTrailingSlashes p
    if s = "" then "/"
    else (lastComp (Ocil.splitOnChar '/' s)).getD ""

/-- The OS at the `os.Stat` boundary: existing paths with an is-directory
flag. -/
abbrev OsFS := List (String × Bool)

def statOS (osfs : OsFS) (p : String) : Option Bool :=
  (osfs.find? (fun e => e.1 == p)).map (fun e => e.2)

/-- `File.path`: `filepath.Join(u.Host, u.Path)`. -/
def filePath (u : GoURL) : String := fpJoin u.host u.path

/-- `File.Name`: `filepath.Base(f.path(u))`. -/
def fileName (u : GoURL) : String := fpBase (filePath u)

/-- `File.Detect`: false on the empty joined path; false when `os.Stat`
fails; otherwise true exactly for non-directories. -/
def fileDetect (osfs : OsFS) (u : GoURL) : Bool :=
  if (filePath u).length = 0 then false
  else
    match statOS osfs (filePath u) with
    | none => false
    | some isDir => ! isDir

end Getter

/-! ## Theorems -/

namespace Ocil

theorem string_length_zero_iff (s : String) : s.length = 0 ↔ s = "" := by
  cases s with
  | mk data =>
    constructor
    · intro h
      cases data with
      | nil => rfl
      | cons c cs => simp [String.length] at h
    · intro h
      rw [h]
      rfl

theorem lookup_removeAll (fs : FS) (t p : List String) :
    lookupFS (removeAll fs t) p = if t.isPrefixOf p then none else lookupFS fs p := by
  induction fs with
  | nil => by_cases h : t.isPrefixOf p <;> simp [removeAll, lookupFS, h]
  | cons ent rest ih =>
    obtain ⟨q, b⟩ := ent
    by_cases h1 : t.isPrefixOf q <;> by_cases h2 : q = p
    · subst h2
      simp [removeAll, lookupFS, h1, ih]
    · simp [removeAll, lookupFS, h1, h2, ih]
    · subst h2
      simp [removeAll, lookupFS, h1, ih]
    · simp [removeAll, lookupFS, h1, h2, ih]

theorem statOk_setFile_self (fs : FS) (p : List String) (b : List Nat) :
    statOk (setFile fs p b) p = true := by
  simp [statOk, setFile]

theorem statOk_setFile_mono (fs : FS) (p q : List String) (b : List Nat)
    (h : statOk fs p = true) : statOk (setFile fs q b) p = true := by
  simp only [statOk, setFile, List.any_cons]
  simp only [statOk] at h
  simp [h]

theorem writeLayer_eq (root : List String) (fs : FS) (lyr : Layer) (d : Digest)
    (b : List Nat) (hd : lyr.digest = .ok d) (hb : lyr.compressed = .ok b) :
    writeLayer root fs lyr =
      .ok (if statOk fs (blobPathFor root d) then fs
           else setFile fs (blobPathFor root d) b) := by
  unfold writeLayer
  rw [hd, hb]
  by_cases h : statOk fs (blobPathFor root d) = true <;> simp [h]

theorem writeBlobData_eq (root : List String) (fs : FS) (data : List Nat) :
    writeBlobData root fs data = .ok (afterBlob root fs data) :=
  writeLayer_eq root fs (staticLayer data) _ data rfl rfl

theorem afterBlob_idem (root : List String) (fs : FS) (data : List Nat) :
    afterBlob root (afterBlob root fs data) data = afterBlob root fs data := by
  unfold afterBlob
  by_cases hs : statOk fs (blobPathFor root ⟨"sha256", sha256hex data⟩) = true
  · simp [hs]
  · simp [hs, statOk_setFile_self]

theorem AddOCI_merr (st : LayoutSt) (ref e : String) (cv : Except String (List Nat))
    (lv : Except String (List Layer)) :
    AddOCI st ⟨.error e, cv, lv⟩ ref = (st, .error ("manifest: " ++ e)) := rfl

theorem AddOCI_cerr (st : LayoutSt) (ref : String) (m : Manifest) (e : String)
    (lv : Except String (List Layer)) :
    AddOCI st ⟨.ok m, .error e, lv⟩ ref =
      ({ st with fs := afterBlob st.root st.fs (marshalManifest m) },
       .error ("raw config: " ++ e)) := by
  unfold AddOCI
  simp only [writeBlobData_eq]

theorem AddOCI_lerr (st : LayoutSt) (ref : String) (m : Manifest) (cdata : List Nat)
    (e : String) :
    AddOCI st ⟨.ok m, .ok cdata, .error e⟩ ref =
      ({ st with fs := afterBlob st.root (afterBlob st.root st.fs (marshalManifest m)) cdata },
       .error ("layers: " ++ e)) := by
  unfold AddOCI
  simp only [writeBlobData_eq]

theorem AddOCI_layers (st : LayoutSt) (ref : String) (m : Manifest) (cdata : List Nat)
    (ls : List Layer) :
    AddOCI st ⟨.ok m, .ok cdata, .ok ls⟩ ref =
      (match writeLayersC st.root ls
          (afterBlob st.root (afterBlob st.root st.fs (marshalManifest m)) cdata) st.cache with
       | (fs3, c3, some e) =>
         ({ st with fs := fs3, cache := c3 }, .error ("write layers: " ++ e))
       | (fs3, c3, none) =>
         ({ st with
            fs := fs3
            cache := c3
            index := addIndex st.index (mkManifestDesc m ref) },
          .ok (mkManifestDesc m ref))) := by
  unfold AddOCI mkManifestDesc
  simp only [writeBlobData_eq]

/-- C1 counterexample: `writeLayer` persists the payload `[1, 2, 3]` under
the hex `"00"` taken from the layer's self-reported digest, although the
SHA-256 digest computed over the payload bytes is not `"00"` — so the claim
that every blob written through `writeBlobData`/`writeLayer` is stored under
the digest recomputed from the actual bytes fails at this input. -/
theorem writeLayer_trusts_reported_digest :
    writeLayer [] [] misreportingLayer = .ok [(["blobs", "sha256", "00"], [1, 2, 3])] ∧
    sha256hex [1, 2, 3] ≠ "00" := by
  constructor
  · rfl
  · decide

/-- C1 (amended): a payload written through `writeBlobData` is stored at
`blobs/sha256/<hex>` under the store root with `<hex>` the SHA-256 digest
recomputed over the exact payload bytes at write time; `writeLayer`, in
contrast, stores the layer's compressed bytes at the path built from the
layer's self-reported digest, trusting it without recomputation. -/
theorem blob_write_content_addressing :
    (∀ root fs data,
      statOk fs (blobPathFor root ⟨"sha256", sha256hex data⟩) = false →
      writeBlobData root fs data =
        .ok (setFile fs (blobPathFor root ⟨"sha256", sha256hex data⟩) data)) ∧
    (∀ root fs lyr d b, lyr.digest = .ok d → lyr.compressed = .ok b →
      statOk fs (blobPathFor root d) = false →
      writeLayer root fs lyr = .ok (setFile fs (blobPathFor root d) b)) := by
  constructor
  · intro root fs data hstat
    rw [writeBlobData_eq]
    unfold afterBlob
    rw [hstat]
    simp
  · intro root fs lyr d b hd hb hstat
    rw [writeLayer_eq root fs lyr d b hd hb, hstat]
    simp

theorem blob_write_content_addressing_witness :
    (writeBlobData [] [] [1, 2, 3] =
      .ok (setFile [] (blobPathFor [] ⟨"sha256", sha256hex [1, 2, 3]⟩) [1, 2, 3])) ∧
    (writeLayer [] [] misreportingLayer =
      .ok (setFile [] (blobPathFor [] ⟨"sha256", "00"⟩) [1, 2, 3])) :=
  ⟨blob_write_content_addressing.1 [] [] [1, 2, 3] (by decide),
   blob_write_content_addressing.2 [] [] misreportingLayer ⟨"sha256", "00"⟩ [1, 2, 3]
     rfl rfl (by decide)⟩

/-- C2: blob writes are idempotent: when `os.Stat` succeeds on the
destination blob path, the write returns success with the state unchanged
(no re-write and no verification of the existing bytes), and writing the
same payload twice leaves exactly the state of the first write, the second
write neither erroring nor duplicating data. -/
theorem blob_writes_idempotent :
    (∀ root fs lyr d b, lyr.digest = .ok d → lyr.compressed = .ok b →
      statOk fs (blobPathFor root d) = true → writeLayer root fs lyr = .ok fs) ∧
    (∀ root fs data fs', writeBlobData root fs data = .ok fs' →
      writeBlobData root fs' data = .ok fs') := by
  constructor
  · intro root fs lyr d b hd hb hstat
    rw [writeLayer_eq root fs lyr d b hd hb, hstat]
    simp
  · intro root fs data fs' h
    rw [writeBlobData_eq] at h
    injection h with h
    subst h
    rw [writeBlobData_eq, afterBlob_idem]

theorem blob_writes_idempotent_witness :
    (writeLayer [] [(["blobs", "sha256", "aa"], [9])] pretendLayer =
      .ok [(["blobs", "sha256", "aa"], [9])]) ∧
    (writeBlobData [] (setFile [] (blobPathFor [] ⟨"sha256", sha256hex [5]⟩) [5]) [5] =
      .ok (setFile [] (blobPathFor [] ⟨"sha256", sha256hex [5]⟩) [5])) :=
  ⟨blob_writes_idempotent.1 [] [(["blobs", "sha256", "aa"], [9])] pretendLayer
      ⟨"sha256", "aa"⟩ [7] rfl rfl (by decide),
   blob_writes_idempotent.2 [] [] [5] _ (by rfl)⟩

/-- C8: `Identify` never surfaces an error: it returns the config media type
decoded from the fetched blob when both the fetch and the decode succeed,
and the empty string on any failure (fetch error or decode error). -/
theorem identify_best_effort (decode : List Nat → Except String String)
    (st : LayoutSt) (desc : Descriptor) :
    (∀ e, fetchBlob st desc = .error e → Identify decode st desc = "") ∧
    (∀ b, fetchBlob st desc = .ok b →
      (∀ e, decode b = .error e → Identify decode st desc = "") ∧
      (∀ mt, decode b = .ok mt → Identify decode st desc = mt)) := by
  constructor
  · intro e he
    unfold Identify
    rw [he]
  · intro b hb
    constructor
    · intro e he
      unfold Identify
      rw [hb]
      simp [he]
    · intro mt hmt
      unfold Identify
      rw [hb]
      simp [hmt]

theorem identify_best_effort_witness :
    Identify (fun _ => .ok "cfg") idSt idDesc = "cfg" ∧
    Identify (fun _ => .error "bad json") idSt idDesc = "" ∧
    Identify (fun _ => .ok "cfg") idSt { idDesc with digest := "sha256:ff" } = "" :=
  ⟨((identify_best_effort (fun _ => .ok "cfg") idSt idDesc).2 [1] (by rfl)).2 "cfg" rfl,
   ((identify_best_effort (fun _ => .error "bad json") idSt idDesc).2 [1] (by rfl)).1
     "bad json" rfl,
   (identify_best_effort (fun _ => .ok "cfg") idSt
     { idDesc with digest := "sha256:ff" }).1 "fetch: not found" (by rfl)⟩

/-- C3: on success, `AddOCI` returns a descriptor whose media type is taken
from the artifact's manifest, whose digest and size are computed over the
exact serialized manifest bytes, and which carries the human reference name
as its ref-name annotation; that same descriptor has been appended to the
index under the reference when `AddOCI` returns. -/
theorem addOCI_descriptor (st : LayoutSt) (oci : OCIArtifact) (ref : String)
    (m : Manifest) (st' : LayoutSt) (d : Descriptor)
    (hm : oci.manifest = .ok m) (h : AddOCI st oci ref = (st', .ok d)) :
    d = { mediaType := m.mediaType,
          digest := "sha256:" ++ sha256hex (marshalManifest m),
          size := (marshalManifest m).length,
          annotations := [(refNameKey, ref)] } ∧
    st'.index = addIndex st.index d := by
  obtain ⟨mv, cv, lv⟩ := oci
  obtain rfl : mv = .ok m := hm
  cases cv with
  | error e =>
    rw [AddOCI_cerr] at h
    simp [Prod.ext_iff] at h
  | ok cdata =>
    cases lv with
    | error e =>
      rw [AddOCI_lerr] at h
      simp [Prod.ext_iff] at h
    | ok ls =>
      rw [AddOCI_layers] at h
      rcases hw : writeLayersC st.root ls
        (afterBlob st.root (afterBlob st.root st.fs (marshalManifest m)) cdata) st.cache
        with ⟨fs3, c3, err⟩
      rw [hw] at h
      cases err with
      | some e =>
        simp [Prod.ext_iff] at h
      | none =>
        simp only [Prod.mk.injEq, Except.ok.injEq] at h
        obtain ⟨hst, hd⟩ := h
        subst hd
        subst hst
        exact ⟨rfl, rfl⟩

theorem addOCI_descriptor_witness :
    mkManifestDesc wManifest "r" =
      { mediaType := wManifest.mediaType,
        digest := "sha256:" ++ sha256hex (marshalManifest wManifest),
        size := (marshalManifest wManifest).length,
        annotations := [(refNameKey, "r")] } ∧
    (AddOCI emptySt wArtifact "r").1.index =
      addIndex emptySt.index (mkManifestDesc wManifest "r") :=
  addOCI_descriptor emptySt wArtifact "r" wManifest
    (AddOCI emptySt wArtifact "r").1 (mkManifestDesc wManifest "r") rfl (by rfl)

theorem cacheStep_digest (c : Option CacheSt) (l : Layer) :
    ((cacheStep c l).1).digest = l.digest := by
  cases c with
  | none => rfl
  | some cs =>
    cases hd : l.digest with
    | error e => simp [cacheStep, cacheLayer, hd]
    | ok d =>
      cases hg : cacheGet cs d with
      | none =>
        cases hb : l.compressed <;> simp [cacheStep, cacheLayer, hd, hg, hb]
      | some b => simp [cacheStep, cacheLayer, hd, hg]

theorem cacheStep_compressed_ok (c : Option CacheSt) (l : Layer) (b : List Nat)
    (hb : l.compressed = .ok b) :
    ∃ b', ((cacheStep c l).1).compressed = .ok b' := by
  cases c with
  | none => exact ⟨b, hb⟩
  | some cs =>
    cases hd : l.digest with
    | error e => exact ⟨b, by simpa [cacheStep, cacheLayer, hd] using hb⟩
    | ok d =>
      cases hg : cacheGet cs d with
      | none => exact ⟨b, by simp [cacheStep, cacheLayer, hd, hg, hb]⟩
      | some bc => exact ⟨bc, by simp [cacheStep, cacheLayer, hd, hg]⟩

theorem statOk_writeLayer (root : List String) (fs : FS) (lyr : Layer) (fs' : FS)
    (p : List String) (h : writeLayer root fs lyr = .ok fs') (hp : statOk fs p = true) :
    statOk fs' p = true := by
  cases hd : lyr.digest with
  | error e =>
    rw [writeLayer, hd] at h
    cases h
  | ok d =>
    cases hb : lyr.compressed with
    | error e =>
      rw [writeLayer, hd, hb] at h
      cases h
    | ok b =>
      rw [writeLayer_eq root fs lyr d b hd hb] at h
      injection h with h
      subst h
      by_cases hs : statOk fs (blobPathFor root d) = true
      · simpa [hs] using hp
      · simp only [hs, Bool.false_eq_true, if_false]
        exact statOk_setFile_mono fs p _ b hp

theorem writeLayersC_fst_mono (root : List String) (ls : List Layer) :
    ∀ fs c p, statOk fs p = true → statOk (writeLayersC root ls fs c).1 p = true := by
  induction ls with
  | nil =>
    intro fs c p hp
    simpa [writeLayersC] using hp
  | cons l rest ih =>
    intro fs c p hp
    simp only [writeLayersC]
    cases hw : writeLayer root fs (cacheStep c l).1 with
    | ok fs2 =>
      exact ih fs2 _ p (statOk_writeLayer root fs _ fs2 p hw hp)
    | error e =>
      exact ih fs _ p hp

theorem statOk_ite_self (fs : FS) (p : List String) (b : List Nat) :
    statOk (if statOk fs p = true then fs else setFile fs p b) p = true := by
  by_cases h : statOk fs p = true <;> simp [h, statOk_setFile_self]

theorem writeLayersC_keeps_success (root : List String) (ls : List Layer) :
    ∀ fs c, ∀ lyr ∈ ls, ∀ d b, lyr.digest = .ok d → lyr.compressed = .ok b →
      statOk (writeLayersC root ls fs c).1 (blobPathFor root d) = true := by
  induction ls with
  | nil =>
    intro fs c lyr hmem
    cases hmem
  | cons l rest ih =>
    intro fs c lyr hmem d b hd hb
    rcases List.mem_cons.mp hmem with rfl | hmem2
    · obtain ⟨b', hb'⟩ := cacheStep_compressed_ok c lyr b hb
      have hd' : ((cacheStep c lyr).1).digest = .ok d := by rw [cacheStep_digest, hd]
      simp only [writeLayersC]
      rw [writeLayer_eq root fs (cacheStep c lyr).1 d b' hd' hb']
      exact writeLayersC_fst_mono root rest _ _ _ (statOk_ite_self fs _ b')
    · simp only [writeLayersC]
      cases hw : writeLayer root fs (cacheStep c l).1 with
      | ok fs2 =>
        exact ih fs2 _ lyr hmem2 d b hd hb
      | error e =>
        exact ih fs _ lyr hmem2 d b hd hb

/-- C4: every failing step of `AddOCI` surfaces an error naming that step —
`manifest:` for manifest production, `raw config:` for config production,
`layers:` for layer-list production, and `write layers:` wrapping the first
failing layer's own error — and no rollback is performed: the state carries
all blobs written before the failure, and when one layer write fails every
layer whose write succeeded still has its blob on disk.  (Manifest
serialization and the index append cannot fail in this model: `json.Marshal`
of a manifest value and the in-memory index append are total.) -/
theorem addOCI_error_surfacing :
    (∀ st oci ref e, oci.manifest = .error e →
      AddOCI st oci ref = (st, .error ("manifest: " ++ e))) ∧
    (∀ st oci ref m e, oci.manifest = .ok m → oci.rawConfig = .error e →
      AddOCI st oci ref =
        ({ st with fs := afterBlob st.root st.fs (marshalManifest m) },
         .error ("raw config: " ++ e))) ∧
    (∀ st oci ref m cdata e, oci.manifest = .ok m → oci.rawConfig = .ok cdata →
      oci.layers = .error e →
      AddOCI st oci ref =
        ({ st with fs := afterBlob st.root (afterBlob st.root st.fs (marshalManifest m)) cdata },
         .error ("layers: " ++ e))) ∧
    (∀ st oci ref m cdata ls fs3 c3 e, oci.manifest = .ok m → oci.rawConfig = .ok cdata →
      oci.layers = .ok ls →
      writeLayersC st.root ls
        (afterBlob st.root (afterBlob st.root st.fs (marshalManifest m)) cdata) st.cache =
        (fs3, c3, some e) →
      AddOCI st oci ref = ({ st with fs := fs3, cache := c3 }, .error ("write layers: " ++ e)) ∧
      ∀ lyr ∈ ls, ∀ d b, lyr.digest = .ok d → lyr.compressed = .ok b →
        statOk fs3 (blobPathFor st.root d) = true) := by
  refine ⟨?_, ?_, ?_, ?_⟩
  · intro st oci ref e hm
    obtain ⟨mv, cv, lv⟩ := oci
    obtain rfl : mv = .error e := hm
    exact AddOCI_merr st ref e cv lv
  · intro st oci ref m e hm hc
    obtain ⟨mv, cv, lv⟩ := oci
    obtain rfl : mv = .ok m := hm
    obtain rfl : cv = .error e := hc
    exact AddOCI_cerr st ref m e lv
  · intro st oci ref m cdata e hm hc hl
    obtain ⟨mv, cv, lv⟩ := oci
    obtain rfl : mv = .ok m := hm
    obtain rfl : cv = .ok cdata := hc
    obtain rfl : lv = .error e := hl
    exact AddOCI_lerr st ref m cdata e
  · intro st oci ref m cdata ls fs3 c3 e hm hc hl hw
    obtain ⟨mv, cv, lv⟩ := oci
    obtain rfl : mv = .ok m := hm
    obtain rfl : cv = .ok cdata := hc
    obtain rfl : lv = .ok ls := hl
    constructor
    · rw [AddOCI_layers, hw]
    · intro lyr hmem d b hd hb
      have h1 := writeLayersC_keeps_success st.root ls
        (afterBlob st.root (afterBlob st.root st.fs (marshalManifest m)) cdata) st.cache
        lyr hmem d b hd hb
      rw [hw] at h1
      exact h1

theorem addOCI_error_surfacing_witness :
    (AddOCI emptySt merrArtifact "r" = (emptySt, .error ("manifest: " ++ "boom"))) ∧
    ((AddOCI emptySt failArtifact "r").2 = .error ("write layers: " ++ "digest: boom") ∧
     statOk (AddOCI emptySt failArtifact "r").1.fs
       (blobPathFor [] ⟨"sha256", "bb"⟩) = true) := by
  constructor
  · exact addOCI_error_surfacing.1 emptySt merrArtifact "r" "boom" rfl
  · have h := addOCI_error_surfacing.2.2.2 emptySt failArtifact "r" wManifest [10, 11]
      [goodLayerW, badLayerW]
      (writeLayersC [] [goodLayerW, badLayerW]
        (afterBlob [] (afterBlob [] [] (marshalManifest wManifest)) [10, 11]) none).1
      (writeLayersC [] [goodLayerW, badLayerW]
        (afterBlob [] (afterBlob [] [] (marshalManifest wManifest)) [10, 11]) none).2.1
      "digest: boom" rfl rfl rfl (by rfl)
    constructor
    · rw [h.1]
    · have h2 := h.2 goodLayerW (by simp) ⟨"sha256", "bb"⟩ [3, 4] rfl rfl
      rw [h.1]
      exact h2

theorem AddOCI_index_extends (st : LayoutSt) (oci : OCIArtifact) (ref : String) :
    st.index <+: (AddOCI st oci ref).1.index := by
  obtain ⟨mv, cv, lv⟩ := oci
  cases mv with
  | error e =>
    rw [AddOCI_merr]
  | ok m =>
    cases cv with
    | error e =>
      rw [AddOCI_cerr]
    | ok cdata =>
      cases lv with
      | error e =>
        rw [AddOCI_lerr]
      | ok ls =>
        rw [AddOCI_layers]
        rcases hw : writeLayersC st.root ls
          (afterBlob st.root (afterBlob st.root st.fs (marshalManifest m)) cdata) st.cache
          with ⟨fs3, c3, err⟩
        cases err with
        | some e => exact List.prefix_rfl
        | none => exact ⟨[mkManifestDesc m ref], rfl⟩

theorem addCollGo_index_extends (pairs : List (String × OCIArtifact)) :
    ∀ st descs, st.index <+: (addCollGo st pairs descs).1.index := by
  induction pairs with
  | nil =>
    intro st descs
    exact List.prefix_rfl
  | cons p rest ih =>
    intro st descs
    obtain ⟨ref, oci⟩ := p
    simp only [addCollGo]
    have hpre := AddOCI_index_extends st oci ref
    rcases h : AddOCI st oci ref with ⟨st2, r⟩
    rw [h] at hpre
    cases r with
    | error e => exact hpre
    | ok d => exact hpre.trans (ih st2 (descs ++ [d]))

/-- C5 counterexample: a two-element collection whose second artifact fails
leaves the first artifact indexed, but the returned error is the failing
`AddOCI`'s bare error — the descriptor of the prior successful add appears
nowhere in the returned error context (its digest is not even a substring of
the error), refuting the claimed accumulation of prior descriptors. -/
theorem addOCICollection_error_carries_no_descriptors :
    (AddOCICollection emptySt failColl).2 = .error ("manifest: " ++ "boom") ∧
    ((AddOCICollection emptySt failColl).1.index.map
      (fun d => decide (d.digest.toList <:+: "manifest: boom".toList))) = [false] := by
  constructor
  · rfl
  · decide

/-- C5 (amended): `AddOCICollection` expands the collection into its
(reference, artifact) pairs and calls `AddOCI` for each sequentially,
stopping at the first failure; on failure it returns the failing `AddOCI`'s
error alone, discarding the descriptors of all prior successful adds from
the result rather than accumulating them into the error context; and prior
index appends are not rolled back — the resulting index always extends the
initial one, so earlier artifacts stay durably indexed. -/
theorem addOCICollection_sequential :
    (∀ st col e, col.contents = .error e → AddOCICollection st col = (st, .error e)) ∧
    (∀ st col cnts, col.contents = .ok cnts →
      AddOCICollection st col = addCollGo st cnts []) ∧
    (∀ st ref oci rest descs st2 e, AddOCI st oci ref = (st2, .error e) →
      addCollGo st ((ref, oci) :: rest) descs = (st2, .error e)) ∧
    (∀ st ref oci rest descs st2 d, AddOCI st oci ref = (st2, .ok d) →
      addCollGo st ((ref, oci) :: rest) descs = addCollGo st2 rest (descs ++ [d])) ∧
    (∀ st pairs descs, st.index <+: (addCollGo st pairs descs).1.index) := by
  refine ⟨?_, ?_, ?_, ?_, ?_⟩
  · intro st col e h
    obtain ⟨cv⟩ := col
    obtain rfl : cv = .error e := h
    rfl
  · intro st col cnts h
    obtain ⟨cv⟩ := col
    obtain rfl : cv = .ok cnts := h
    rfl
  · intro st ref oci rest descs st2 e h
    simp only [addCollGo]
    rw [h]
  · intro st ref oci rest descs st2 d h
    simp only [addCollGo]
    rw [h]
  · intro st pairs descs
    exact addCollGo_index_extends pairs st descs

theorem addOCICollection_sequential_witness :
    (AddOCICollection emptySt { contents := .error "expand" } = (emptySt, .error "expand")) ∧
    (addCollGo emptySt [("r2", merrArtifact)] [] =
      (emptySt, .error ("manifest: " ++ "boom"))) ∧
    (addCollGo emptySt [("r1", wArtifact)] [] =
      addCollGo (AddOCI emptySt wArtifact "r1").1 [] ([] ++ [mkManifestDesc wManifest "r1"])) ∧
    (emptySt.index <+: (addCollGo emptySt [("r1", wArtifact), ("r2", merrArtifact)] []).1.index) :=
  ⟨addOCICollection_sequential.1 emptySt { contents := .error "expand" } "expand" rfl,
   addOCICollection_sequential.2.2.1 emptySt "r2" merrArtifact [] [] emptySt
     ("manifest: " ++ "boom") (by rfl),
   addOCICollection_sequential.2.2.2.1 emptySt "r1" wArtifact [] []
     (AddOCI emptySt wArtifact "r1").1 (mkManifestDesc wManifest "r1") (by rfl),
   addOCICollection_sequential.2.2.2.2 emptySt [("r1", wArtifact), ("r2", merrArtifact)] []⟩

theorem resolveRef_mem (idx : List Descriptor) (d : Descriptor) (h : d ∈ idx) :
    ∃ d', resolveRef idx (refOf d) = some d' := by
  have hmem : d ∈ idx.filter (fun x => refOf x == refOf d) :=
    List.mem_filter.mpr ⟨h, by simp⟩
  exact Option.isSome_iff_exists.mp
    (List.getLast?_isSome.mpr (List.ne_nil_of_mem hmem))

theorem copyAllGo_abort (st : LayoutSt) (f : String → Except String String)
    (dk : Descriptor) (post : List Descriptor) (e : String)
    (he : f (refOf dk) = .error e) :
    ∀ (pre : List Descriptor) (tgt : Target) (descs : List Descriptor),
      (∀ d ∈ pre, ∃ r, f (refOf d) = .ok r) →
      (∀ d ∈ pre, d ∈ st.index) →
      ∃ tgt2, copyAllGo st (some f) (pre ++ dk :: post) tgt descs =
        (tgt2, .error ("walk: mapper: " ++ e)) ∧
        tgt2.length = tgt.length + pre.length := by
  intro pre
  induction pre with
  | nil =>
    intro tgt descs _ _
    refine ⟨tgt, ?_, by simp⟩
    simp [copyAllGo, mapperApply, he]
  | cons d0 pre2 ih =>
    intro tgt descs hok hmem
    obtain ⟨r, hr⟩ := hok d0 (List.mem_cons_self d0 pre2)
    obtain ⟨d', hd'⟩ := resolveRef_mem st.index d0 (hmem d0 (List.mem_cons_self d0 pre2))
    simp only [List.cons_append, copyAllGo, mapperApply, hr, copyResolve, hd']
    obtain ⟨tgt2, heq, hlen⟩ := ih (tgt ++ [(r, d')]) (descs ++ [d'])
      (fun d hd => hok d (List.mem_cons_of_mem d0 hd))
      (fun d hd => hmem d (List.mem_cons_of_mem d0 hd))
    refine ⟨tgt2, heq, ?_⟩
    rw [hlen]
    simp [List.length_append]
    omega

/-- C6: `CopyAll` walks every index entry in order; each entry's outgoing
reference is first remapped through the mapper when one is provided, and a
mapper failure aborts the whole walk with that error before any copy of
that entry, so when the mapper fails on an entry the target has received
exactly one copy per earlier entry (with three indexed references and a
mapper failing on the second, exactly one successful copy occurs). -/
theorem copyAll_mapper_abort (st : LayoutSt) (tgt : Target)
    (f : String → Except String String) (pre : List Descriptor) (dk : Descriptor)
    (post : List Descriptor) (e : String)
    (hidx : st.index = pre ++ dk :: post)
    (hok : ∀ d ∈ pre, ∃ r, f (refOf d) = .ok r)
    (he : f (refOf dk) = .error e) :
    ∃ tgt2, CopyAll st tgt (some f) = (tgt2, .error ("walk: mapper: " ++ e)) ∧
      tgt2.length = tgt.length + pre.length := by
  unfold CopyAll
  rw [hidx]
  exact copyAllGo_abort st f dk post e he pre tgt []
    hok (fun d hd => by rw [hidx]; exact List.mem_append_left _ hd)

theorem copyAll_mapper_abort_witness :
    ∃ tgt2, CopyAll copySt [] (some failMapper) =
      (tgt2, .error ("walk: mapper: " ++ "boom")) ∧
      tgt2.length = List.length ([] : Target) + List.length [cdA] :=
  copyAll_mapper_abort copySt [] failMapper [cdA] cdB [cdC] "boom" rfl
    (by
      intro d hd
      rw [List.mem_singleton] at hd
      subst hd
      exact ⟨"x1", by rfl⟩)
    (by rfl)

theorem cacheStep_none (l : Layer) : cacheStep none l = (l, none) := rfl

theorem cacheGet_put_ne (c : CacheSt) (d d2 : Digest) (b : List Nat) (h : d2 ≠ d) :
    cacheGet (cachePut c d b) d2 = cacheGet c d2 := by
  have hbe : (d == d2) = false := beq_eq_false_iff_ne.mpr (Ne.symm h)
  simp [cacheGet, cachePut, List.find?_cons, hbe]

theorem statOk_ite_mono (fs : FS) (p q : List String) (b : List Nat)
    (h : statOk fs q = true) :
    statOk (if statOk fs p = true then fs else setFile fs p b) q = true := by
  by_cases hp : statOk fs p = true
  · simpa [hp] using h
  · simp only [hp, Bool.false_eq_true, if_false]
    exact statOk_setFile_mono fs q p b h

theorem writeLayersC_cache_eq (root : List String) (ls : List Layer) :
    ∀ (fs : FS) (c : CacheSt),
      (∀ l ∈ ls, ∀ d, l.digest = .ok d → ∃ b, l.compressed = .ok b ∧
        (cacheGet c d = none ∨ cacheGet c d = some b ∨
         statOk fs (blobPathFor root d) = true)) →
      (writeLayersC root ls fs (some c)).1 = (writeLayersC root ls fs none).1 ∧
      (writeLayersC root ls fs (some c)).2.2 = (writeLayersC root ls fs none).2.2 := by
  induction ls with
  | nil =>
    intro fs c _
    exact ⟨rfl, rfl⟩
  | cons l rest ih =>
    intro fs c hgood
    have hgrest : ∀ l2 ∈ rest, ∀ d2, l2.digest = .ok d2 → ∃ b2, l2.compressed = .ok b2 ∧
        (cacheGet c d2 = none ∨ cacheGet c d2 = some b2 ∨
         statOk fs (blobPathFor root d2) = true) :=
      fun l2 h2 => hgood l2 (List.mem_cons_of_mem l h2)
    cases hd : l.digest with
    | error e =>
      have hcs : cacheStep (some c) l = (l, some c) := by
        simp [cacheStep, cacheLayer, hd]
      have hwl : writeLayer root fs l = .error e := by
        unfold writeLayer
        rw [hd]
      simp only [writeLayersC, hcs, cacheStep_none, hwl]
      obtain ⟨h1, h2⟩ := ih fs c hgrest
      exact ⟨h1, trivial⟩
    | ok d =>
      obtain ⟨b, hb, hdisj⟩ := hgood l (List.mem_cons_self l rest) d hd
      have hwl := writeLayer_eq root fs l d b hd hb
      rcases hdisj with hnone | hsome | hstat
      · have hcs : cacheStep (some c) l = (l, some (cachePut c d b)) := by
          simp [cacheStep, cacheLayer, hd, hnone, hb]
        simp only [writeLayersC, hcs, cacheStep_none, hwl]
        apply ih _ (cachePut c d b)
        intro l2 h2 d2 hd2
        obtain ⟨b2, hb2, hdisj2⟩ := hgrest l2 h2 d2 hd2
        refine ⟨b2, hb2, ?_⟩
        by_cases hdd : d2 = d
        · subst hdd
          exact Or.inr (Or.inr (statOk_ite_self fs _ b))
        · rw [cacheGet_put_ne c d d2 b hdd]
          rcases hdisj2 with h' | h' | h'
          · exact Or.inl h'
          · exact Or.inr (Or.inl h')
          · exact Or.inr (Or.inr (statOk_ite_mono fs _ _ b h'))
      · have hcs : cacheStep (some c) l =
            ({ digest := l.digest, compressed := .ok b }, some c) := by
          simp [cacheStep, cacheLayer, hd, hsome]
        have hwl2 : writeLayer root fs { digest := l.digest, compressed := .ok b } =
            .ok (if statOk fs (blobPathFor root d) = true then fs
                 else setFile fs (blobPathFor root d) b) :=
          writeLayer_eq root fs _ d b hd rfl
        simp only [writeLayersC, hcs, cacheStep_none, hwl, hwl2]
        apply ih _ c
        intro l2 h2 d2 hd2
        obtain ⟨b2, hb2, hdisj2⟩ := hgrest l2 h2 d2 hd2
        refine ⟨b2, hb2, ?_⟩
        rcases hdisj2 with h' | h' | h'
        · exact Or.inl h'
        · exact Or.inr (Or.inl h')
        · exact Or.inr (Or.inr (statOk_ite_mono fs _ _ b h'))
      · rcases hget : cacheGet c d with _ | bc
        · have hcs : cacheStep (some c) l = (l, some (cachePut c d b)) := by
            simp [cacheStep, cacheLayer, hd, hget, hb]
          simp only [writeLayersC, hcs, cacheStep_none, hwl]
          apply ih _ (cachePut c d b)
          intro l2 h2 d2 hd2
          obtain ⟨b2, hb2, hdisj2⟩ := hgrest l2 h2 d2 hd2
          refine ⟨b2, hb2, ?_⟩
          by_cases hdd : d2 = d
          · subst hdd
            exact Or.inr (Or.inr (statOk_ite_self fs _ b))
          · rw [cacheGet_put_ne c d d2 b hdd]
            rcases hdisj2 with h' | h' | h'
            · exact Or.inl h'
            · exact Or.inr (Or.inl h')
            · exact Or.inr (Or.inr (statOk_ite_mono fs _ _ b h'))
        · have hcs : cacheStep (some c) l =
              ({ digest := l.digest, compressed := .ok bc }, some c) := by
            simp [cacheStep, cacheLayer, hd, hget]
          have hwl2 : writeLayer root fs { digest := l.digest, compressed := .ok bc } =
              .ok fs := by
            rw [writeLayer_eq root fs { digest := l.digest, compressed := .ok bc } d bc hd rfl,
              hstat]
            simp
          have hwl3 : writeLayer root fs l = .ok fs := by
            rw [hwl, hstat]
            simp
          simp only [writeLayersC, hcs, cacheStep_none, hwl2, hwl3]
          exact ih fs c hgrest

/-- C9: `AddOCI` on a store with a cache configured is observationally
identical to `AddOCI` on the same store with no cache: under the cache
contract of §4.2 — every cached entry for a layer's digest holds exactly
that layer's compressed bytes (and layers whose digest is available can
produce their bytes) — both runs yield the same on-disk state, the same
index and the same returned result, the cache never altering any digest. -/
theorem addOCI_cache_transparent :
    ∀ st oci ref c, st.cache = some c →
      (∀ ls, oci.layers = .ok ls → ∀ l ∈ ls, ∀ d, l.digest = .ok d →
        ∃ b, l.compressed = .ok b ∧
          (cacheGet c d = none ∨ cacheGet c d = some b)) →
      (AddOCI st oci ref).1.fs = (AddOCI { st with cache := none } oci ref).1.fs ∧
      (AddOCI st oci ref).1.index = (AddOCI { st with cache := none } oci ref).1.index ∧
      (AddOCI st oci ref).2 = (AddOCI { st with cache := none } oci ref).2 := by
  intro st oci ref c hc hgood
  obtain ⟨mv, cv, lv⟩ := oci
  cases mv with
  | error e =>
    rw [AddOCI_merr, AddOCI_merr]
    exact ⟨rfl, rfl, rfl⟩
  | ok m =>
    cases cv with
    | error e =>
      rw [AddOCI_cerr, AddOCI_cerr]
      exact ⟨rfl, rfl, rfl⟩
    | ok cdata =>
      cases lv with
      | error e =>
        rw [AddOCI_lerr, AddOCI_lerr]
        exact ⟨rfl, rfl, rfl⟩
      | ok ls =>
        rw [AddOCI_layers, AddOCI_layers]
        have hmain := writeLayersC_cache_eq st.root ls
          (afterBlob st.root (afterBlob st.root st.fs (marshalManifest m)) cdata) c
          (fun l hl d hd => by
            obtain ⟨b, hb, hdisj⟩ := hgood ls rfl l hl d hd
            exact ⟨b, hb, hdisj.imp id Or.inl⟩)
        rw [hc]
        rcases h1 : writeLayersC st.root ls
          (afterBlob st.root (afterBlob st.root st.fs (marshalManifest m)) cdata) (some c)
          with ⟨fsA, cA, errA⟩
        rcases h2 : writeLayersC st.root ls
          (afterBlob st.root (afterBlob st.root st.fs (marshalManifest m)) cdata) none
          with ⟨fsB, cB, errB⟩
        rw [h1, h2] at hmain
        obtain ⟨hfs, herr⟩ := hmain
        simp only at hfs herr
        subst hfs
        subst herr
        cases errA with
        | some e => exact ⟨rfl, rfl, rfl⟩
        | none => exact ⟨rfl, rfl, rfl⟩

theorem addOCI_cache_transparent_witness :
    (AddOCI cacheSt layerArtifact "r").1.fs =
      (AddOCI { cacheSt with cache := none } layerArtifact "r").1.fs ∧
    (AddOCI cacheSt layerArtifact "r").1.index =
      (AddOCI { cacheSt with cache := none } layerArtifact "r").1.index ∧
    (AddOCI cacheSt layerArtifact "r").2 =
      (AddOCI { cacheSt with cache := none } layerArtifact "r").2 :=
  addOCI_cache_transparent cacheSt layerArtifact "r" [] rfl
    (by
      intro ls hls l hl d hd
      injection hls with hls
      subst hls
      rw [List.mem_singleton] at hl
      subst hl
      injection hd with hd
      subst hd
      exact ⟨[3, 4], rfl, Or.inl rfl⟩)

/-- C7: `Flush` removes exactly the three on-disk targets under the store
root — the blobs tree, `index.json` and the `oci-layout` marker — and leaves
every other path's content unchanged.  (`os.RemoveAll` reports success on
absent targets, so `Flush` is total in this model and returns no error.) -/
theorem flush_removes_exactly_the_three_targets (st : LayoutSt) (p : List String) :
    lookupFS (Flush st).fs p =
      if ((st.root ++ ["blobs"]).isPrefixOf p
          || (st.root ++ ["index.json"]).isPrefixOf p
          || (st.root ++ ["oci-layout"]).isPrefixOf p) then none
      else lookupFS st.fs p := by
  simp only [Flush]
  rw [lookup_removeAll, lookup_removeAll, lookup_removeAll]
  by_cases h1 : (st.root ++ ["blobs"]).isPrefixOf p <;>
    by_cases h2 : (st.root ++ ["index.json"]).isPrefixOf p <;>
      by_cases h3 : (st.root ++ ["oci-layout"]).isPrefixOf p <;>
        simp [h1, h2, h3]

end Ocil

namespace Getter

/-- C10: `File.Detect` returns true exactly when the path joined from
`u.Host` and `u.Path` is non-empty, `os.Stat` succeeds on it, and it is not
a directory (so nonexistent paths and directories yield `false`, never an
error), and `File.Name` is the final element (`filepath.Base`) of that same
joined path. -/
theorem detect_iff_and_name (osfs : OsFS) (u : GoURL) :
    (fileDetect osfs u = true ↔
      (filePath u ≠ "" ∧ statOS osfs (filePath u) = some false)) ∧
    fileName u = fpBase (filePath u) := by
  constructor
  · unfold fileDetect
    by_cases hp : (filePath u).length = 0
    · have he : filePath u = "" := (Ocil.string_length_zero_iff _).mp hp
      simp [hp, he]
    · have he : filePath u ≠ "" := fun h => hp ((Ocil.string_length_zero_iff _).mpr h)
      cases hs : statOS osfs (filePath u) with
      | none => simp [hp, hs]
      | some b => cases b <;> simp [hp, hs, he]
  · rfl

end Getter
